import Mathlib

/-
  Verification of the nextmeet command-line calendar assistant.

  Shallow embedding of src/meetings.rs, src/tokens.rs and src/main.rs.
  Conventions of the embedding:
  - Machine timestamps are modelled at integer-second resolution (the Rust
    code compares meetings by whole seconds via num_seconds); a date-time
    string is abstracted to its parse outcome (a valid instant or a parse
    failure), since the chrono parser is external library code.
  - Rust Option and Result are both modelled by Lean Option (the error
    payloads of this program are never inspected, only propagated).
  - The regex searches of get_link and get_other_links are modelled as
    executable leftmost-first matchers over character lists, with the
    exact patterns of the source (an unescaped regex dot is a wildcard).
  - Effectful operations (credential file, OAuth provider, network) are
    modelled by an explicit environment of oracle outcomes.
-/

namespace Nextmeet

/-- Abstraction of a date-time string: either it parses (chrono RFC3339)
to the instant t, measured in seconds, or it does not parse. -/
inductive DateTimeStr where
  | valid (t : Int)
  | invalid
deriving DecidableEq

/-- Parse outcome of a date-time string, as used by Meeting start and end. -/
def parseDateTime : DateTimeStr → Option Int
  | .valid t => some t
  | .invalid => none

/-- Attendee record (meetings.rs): response status and the self marker. -/
structure Attendee where
  response_status : String
  is_self : Bool
deriving DecidableEq

/-- MeetTime record (meetings.rs): an optional dateTime field. -/
structure MeetTime where
  date_time : Option DateTimeStr
deriving DecidableEq

/-- Meeting record (meetings.rs). The Rust field named end is a Lean
keyword, so it is called end_ here. -/
structure Meeting where
  summary : Option String
  start : Option MeetTime
  end_ : Option MeetTime
  hangout_link : Option String
  description : Option String
  attendees : List Attendee
deriving DecidableEq

/-- The Rust regex class \s (ASCII whitespace range of the class). -/
def isSpaceChar (c : Char) : Bool :=
  c = ' ' || c = '\t' || c = '\n' || c = '\r' || c = Char.ofNat 11 || c = Char.ofNat 12

/-- A character matched by the regex class [^\s"]. -/
def linkChar (c : Char) : Bool :=
  !(isSpaceChar c) && !(c = '"')

/-- Match a literal-with-wildcards pattern (none is the regex dot) at the
head of a string; on success return the remaining characters. -/
def matchLit : List (Option Char) → List Char → Option (List Char)
  | [], rest => some rest
  | _ :: _, [] => none
  | some pc :: ps, c :: cs => if pc = c then matchLit ps cs else none
  | none :: ps, _ :: cs => matchLit ps cs

/-- Pattern of the regex https://app.gather.town (dots are wildcards). -/
def gatherPat : List (Option Char) :=
  ("https://app".data.map some) ++ [none] ++ ("gather".data.map some) ++ [none] ++ ("town".data.map some)

/-- Pattern of the literal regex prefix https:// of the zoom regex. -/
def httpsPat : List (Option Char) :=
  "https://".data.map some

/-- Pattern of the regex fragment zoom.us (the dot is a wildcard). -/
def zoomPat : List (Option Char) :=
  ("zoom".data.map some) ++ [none] ++ ("us".data.map some)

/-- Match of the regex https://app.gather.town[^\s"]* anchored at the head:
the literal part followed by the greedy star extension. -/
def gatherAt (s : List Char) : Option (List Char) :=
  (matchLit gatherPat s).map fun rest =>
    s.take gatherPat.length ++ rest.takeWhile linkChar

/-- Leftmost match of the gather regex (Regex::find semantics). -/
def findGatherList : List Char → Option (List Char)
  | [] => none
  | c :: cs =>
    match gatherAt (c :: cs) with
    | some r => some r
    | none => findGatherList cs

/-- Greedy split for the first star of https://[^\s"]*zoom.us[^\s"]*: the
largest number of [^\s"] characters after https:// that still leaves a
zoom.us match (leftmost-first semantics prefer more star repetitions). -/
def zoomSplit (rest : List Char) : Option Nat :=
  ((List.range ((rest.takeWhile linkChar).length + 1)).reverse).find?
    fun k => (matchLit zoomPat (rest.drop k)).isSome

/-- Match of the zoom regex anchored at the head of the string. -/
def zoomAt (s : List Char) : Option (List Char) :=
  (matchLit httpsPat s).bind fun rest =>
    (zoomSplit rest).map fun k =>
      s.take httpsPat.length ++ rest.take k ++ (rest.drop k).take zoomPat.length
        ++ ((rest.drop k).drop zoomPat.length).takeWhile linkChar

/-- Leftmost match of the zoom regex (Regex::find semantics). -/
def findZoomList : List Char → Option (List Char)
  | [] => none
  | c :: cs =>
    match zoomAt (c :: cs) with
    | some r => some r
    | none => findZoomList cs

/-- First gather.town URL found in a description string. -/
def findGather (s : String) : Option String :=
  (findGatherList s.data).map fun l => String.mk l

/-- First zoom.us URL found in a description string. -/
def findZoom (s : String) : Option String :=
  (findZoomList s.data).map fun l => String.mk l

/-- Meeting::get_link of meetings.rs: gather link in the description, else
zoom link in the description, else the native hangout_link field. -/
def Meeting.get_link (m : Meeting) : Option String :=
  let descriptionLink := m.description.bind fun d =>
    match findGather d with
    | some g => some g
    | none => findZoom d
  match descriptionLink with
  | some l => some l
  | none => m.hangout_link

/-- One step of captures_iter for the regex href="([^"]+): match the
literal href=" at the head, then a nonempty greedy run of non-quote
characters (the capture); return the capture and the characters after
the end of the match. -/
def matchHref (s : List Char) : Option (List Char × List Char) :=
  match matchLit ("href=\"".data.map some) s with
  | none => none
  | some rest =>
    let cap := rest.takeWhile fun c => !(c = '"')
    if cap.isEmpty then none else some (cap, rest.drop cap.length)

/-- Scan of captures_iter: successive non-overlapping leftmost matches.
The fuel argument bounds the recursion; every step consumes at least one
character, so fuel equal to the length of the scanned string suffices. -/
def otherLinksAux : Nat → List Char → List (List Char)
  | 0, _ => []
  | _, [] => []
  | fuel + 1, c :: cs =>
    match matchHref (c :: cs) with
    | some (cap, rest) => cap :: otherLinksAux fuel rest
    | none => otherLinksAux fuel cs

/-- Meeting::get_other_links of meetings.rs: all href targets captured in
the description, in order, duplicates retained; empty without one. -/
def Meeting.get_other_links (m : Meeting) : List String :=
  match m.description with
  | some d => (otherLinksAux d.data.length d.data).map fun l => String.mk l
  | none => []

/-- Meeting::start of meetings.rs: the parsed start instant, or an error
(modelled none) when the field is absent or does not parse. -/
def Meeting.startTime (m : Meeting) : Option Int :=
  match m.start with
  | some ⟨some dt⟩ => parseDateTime dt
  | _ => none

/-- Meeting::end of meetings.rs, analogous to Meeting::start. -/
def Meeting.endTime (m : Meeting) : Option Int :=
  match m.end_ with
  | some ⟨some dt⟩ => parseDateTime dt
  | _ => none

/-- Meeting::accepted of meetings.rs: some attendee is the self entry and
has responded accepted. -/
def Meeting.accepted (m : Meeting) : Bool :=
  m.attendees.any fun attendee => attendee.is_self && attendee.response_status == "accepted"

/-- The filter predicate of next_meeting in meetings.rs. -/
def meetingSurvives (now : Int) (m : Meeting) : Bool :=
  m.get_link.isSome && m.startTime.isSome &&
    (match m.endTime with
     | some se => decide (se > now)
     | none => false) && m.accepted

/-- The min_by_key selector of next_meeting: absolute distance in seconds
from start to now. The none branch models the unwrap panic on a missing
start; it is unreachable for meetings passing the filter (claim C10). -/
def meetingKey (now : Int) (m : Meeting) : Int :=
  match m.startTime with
  | some st => |st - now|
  | none => 0

/-- Iterator::min_by_key of the Rust standard library: the first element
attaining the minimal key, none on an empty sequence. -/
def minByKey {α : Type} (key : α → Int) : List α → Option α
  | [] => none
  | a :: as_ =>
    match minByKey key as_ with
    | none => some a
    | some b => if key b < key a then some b else some a

/-- next_meeting of meetings.rs: filter then min_by_key. -/
def next_meeting (meetings : List Meeting) (now : Int) : Option Meeting :=
  minByKey (meetingKey now) (meetings.filter (meetingSurvives now))

/-- The survivor list of next_meeting (its filter stage). -/
def survivors (meetings : List Meeting) (now : Int) : List Meeting :=
  meetings.filter (meetingSurvives now)

/-- Stated from the spec words for claim C1: the earliest-positioned
element whose key is less than or equal to the key of every element
(the stable minimum). -/
def stableArgmin {α : Type} (key : α → Int) (l : List α) : Option α :=
  l.find? fun a => l.all fun b => decide (key a ≤ key b)

/-- The filter predicate of retrieve_all in meetings.rs. -/
def keptForAll (m : Meeting) : Bool :=
  m.startTime.isSome && m.accepted && m.get_link.isSome

/-- The sort_by_key key of retrieve_all. The none branch models the
unwrap panic; unreachable after the filter (claim C10). -/
def allKey (m : Meeting) : Int :=
  match m.startTime with
  | some st => st
  | none => 0

/-- The pure core of retrieve_all in meetings.rs: filter the fetched
items, then stable-sort ascending by start instant (Rust sort_by_key is
a stable sort, modelled by mergeSort). -/
def retrieve_all_meetings (items : List Meeting) : List Meeting :=
  (items.filter keptForAll).mergeSort fun a b => decide (allKey a ≤ allKey b)

/-- The Tokens pair of tokens.rs. -/
structure Tokens where
  access_token : String
  refresh_token : Option String
deriving DecidableEq

/-- Oracle environment for the effectful token lifecycle: the outcome of
reading the credential file, of the n-th run of the interactive
Authorization Flow (consent plus code exchange), of a refresh-token
exchange at the provider, and of writing the credential file. -/
structure AuthEnv where
  loadResult : Option Tokens
  loginResults : Nat → Option Tokens
  exchangeResult : String → Option Tokens
  saveOk : Bool

/-- Tokens::do_login of tokens.rs, given that n Authorization Flow runs
already happened: the consent and code exchange produce a pair (or fail),
and the pair is saved before being returned. -/
def do_login (env : AuthEnv) (n : Nat) : Option Tokens :=
  match env.loginResults n with
  | none => none
  | some t => if env.saveOk then some t else none

/-- Tokens::refresh of tokens.rs: requires a refresh token, exchanges it
at the provider, keeps the old refresh token when the provider returns
none, and saves the new pair before returning it. -/
def Tokens.refresh (env : AuthEnv) (t : Tokens) : Option Tokens :=
  match t.refresh_token with
  | none => none
  | some r =>
    match env.exchangeResult r with
    | none => none
    | some res =>
      let newTokens : Tokens :=
        { access_token := res.access_token
          refresh_token :=
            match res.refresh_token with
            | some nr => some nr
            | none => some r }
      if env.saveOk then some newTokens else none

/-- retrieve_tokens of meetings.rs, unfolded over the oracle environment:
load().or_else(do_login)?.refresh().or_else(do_login)?. The second
component counts how many times the Authorization Flow was invoked. -/
def retrieve_tokens (env : AuthEnv) : Option Tokens × Nat :=
  match env.loadResult with
  | some t =>
    match Tokens.refresh env t with
    | some t2 => (some t2, 0)
    | none => (do_login env 0, 1)
  | none =>
    match do_login env 0 with
    | none => (none, 1)
    | some t =>
      match Tokens.refresh env t with
      | some t2 => (some t2, 1)
      | none => (do_login env 1, 2)

/-- JSON values as far as the credential file uses them. -/
inductive Json where
  | null
  | str (s : String)
  | obj (fields : List (String × Json))

/-- serde serialization of an Option String field. -/
def optStrToJson : Option String → Json
  | some s => .str s
  | none => .null

/-- serde_json::to_string of a Tokens value (tokens.rs, Tokens::save),
at the level of the JSON document. -/
def Tokens.toJson (t : Tokens) : Json :=
  .obj [("access_token", .str t.access_token),
        ("refresh_token", optStrToJson t.refresh_token)]

/-- Field lookup in a JSON object. -/
def Json.getField : Json → String → Option Json
  | .obj fields, k => (fields.find? fun f => f.1 == k).map fun f => f.2
  | _, _ => none

/-- serde_json::from_str deserialization of a Tokens value (tokens.rs,
Tokens::load): a mandatory string access_token and a nullable, defaulted
refresh_token. -/
def Tokens.fromJson (j : Json) : Option Tokens :=
  match j.getField "access_token" with
  | some (.str a) =>
    match j.getField "refresh_token" with
    | none => some ⟨a, none⟩
    | some .null => some ⟨a, none⟩
    | some (.str r) => some ⟨a, some r⟩
    | some _ => none
  | _ => none

/-- The credential file: absent, or holding one JSON document. -/
def CredStore := Option Json

/-- Tokens::save of tokens.rs at the store level: overwrite the file with
the serialized pair. -/
def saveStore (t : Tokens) (_store : CredStore) : CredStore :=
  some t.toJson

/-- Tokens::load of tokens.rs at the store level: read and parse. -/
def loadStore (store : CredStore) : Option Tokens :=
  match store with
  | none => none
  | some j => Tokens.fromJson j

/-- The output-mode flags of main.rs (the debug flag does not influence
the exit code and is omitted). -/
structure Flags where
  only_link : Bool
  json : Bool
  machine_full : Bool
  additional_links : Bool
  all_meets : Bool
deriving DecidableEq

/-- Oracle environment for main.rs: the outcome of meetings::json, of
Tokens::load().and_then(refresh) as called by the -mf and -al modes, of
meetings::retrieve / retrieve_with_tokens, and of retrieve_all. -/
structure MainEnv where
  jsonResult : Option String
  storedRefresh : Option Tokens
  retrieveResult : Option (Option Meeting)
  retrieveAllResult : Option (List Meeting)

/-- The exit code computed by main in main.rs (returning Err from main
yields exit code 1). -/
def main_exit (f : Flags) (env : MainEnv) : Nat :=
  if f.json then
    match env.jsonResult with
    | some _ => 0
    | none => 1
  else if f.machine_full then
    match env.storedRefresh with
    | some _ =>
      match env.retrieveResult with
      | some _ => 0
      | none => 1
    | none => 1
  else if f.additional_links then
    match env.storedRefresh with
    | some _ =>
      match env.retrieveResult with
      | some _ => 0
      | none => 1
    | none => 1
  else if f.all_meets then
    match env.retrieveAllResult with
    | some _ => 0
    | none => 1
  else
    match env.retrieveResult with
    | none => 1
    | some meeting =>
      if f.only_link then
        match meeting.bind Meeting.get_link with
        | some _ => 0
        | none => 1
      else 0

/-- Meeting::default() of the derived Default instance. -/
def blankMeeting : Meeting :=
  { summary := none, start := none, end_ := none, hangout_link := none,
    description := none, attendees := [] }

/-- The scenario meeting of claim C4: gather.town and zoom.us URLs in the
description plus a native conferencing link. -/
def gatherZoomMeeting : Meeting :=
  { blankMeeting with
    description := some "Join via https://app.gather.town/meetings/ABC and also https://zoom.us/j/123"
    hangout_link := some "https://meet.google.com/xyz" }

/-- The scenario meeting of claim C8: two anchors in the description. -/
def twoHrefMeeting : Meeting :=
  { blankMeeting with
    description := some "<a href=\"http://a.ext\">x</a><a href=\"http://b.ext\">y</a>" }

/-- A meeting whose attendee list has two self entries that both
responded accepted (counterexample input for claim C3). -/
def twoSelfAccepted : Meeting :=
  { blankMeeting with attendees := [⟨"accepted", true⟩, ⟨"accepted", true⟩] }

/-- A fully selectable meeting: parseable start and end, a native link,
and an accepted self attendee. -/
def okMeeting : Meeting :=
  { blankMeeting with
    start := some ⟨some (.valid 100)⟩
    end_ := some ⟨some (.valid 200)⟩
    hangout_link := some "https://meet.example.org/abc"
    attendees := [⟨"accepted", true⟩] }

/-- Counterexample environment for claim C2: the credential file is
missing, the Authorization Flow succeeds, and the provider accepts the
refresh of the freshly obtained pair with a new access token. -/
def c2Env : AuthEnv :=
  { loadResult := none
    loginResults := fun _ => some ⟨"login-access", some "r1"⟩
    exchangeResult := fun _ => some ⟨"refreshed-access", none⟩
    saveOk := true }

/-- Witness environment for claim C5: a persisted pair with a refresh
token loads, the provider rejects the refresh, and a fresh login works. -/
def c5Env : AuthEnv :=
  { loadResult := some ⟨"stale-access", some "r0"⟩
    loginResults := fun _ => some ⟨"fresh-access", some "r2"⟩
    exchangeResult := fun _ => none
    saveOk := true }

/-- Flag records for the output modes of main.rs. -/
def defaultFlags : Flags :=
  { only_link := false, json := false, machine_full := false,
    additional_links := false, all_meets := false }

/-- The -m (link only) mode. -/
def linkOnlyFlags : Flags :=
  { defaultFlags with only_link := true }

/-- The -j (raw JSON) mode. -/
def jsonFlags : Flags :=
  { defaultFlags with json := true }

/-- The -mf (machine-readable full record) mode. -/
def machineFullFlags : Flags :=
  { defaultFlags with machine_full := true }

/-- The -al (auxiliary links) mode. -/
def addLinksFlags : Flags :=
  { defaultFlags with additional_links := true }

/-- The -a (all meetings) mode. -/
def allMeetsFlags : Flags :=
  { defaultFlags with all_meets := true }

/-- A baseline main environment where every effect fails. -/
def baseEnv : MainEnv :=
  { jsonResult := none, storedRefresh := none,
    retrieveResult := none, retrieveAllResult := none }

/-! ### Theorems -/

/-- find? is determined by the pointwise values of its predicate on the
list members. -/
theorem find?_congrOn {α : Type} {p q : α → Bool} :
    ∀ l : List α, (∀ a ∈ l, p a = q a) → l.find? p = l.find? q := by
  intro l
  induction l with
  | nil => intro _; rfl
  | cons a l ih =>
    intro h
    have ha := h a (List.mem_cons_self a l)
    cases hpa : p a with
    | true =>
      rw [List.find?_cons_of_pos l hpa, List.find?_cons_of_pos l (ha ▸ hpa)]
    | false =>
      rw [List.find?_cons_of_neg l (by simp [hpa]), List.find?_cons_of_neg l (by simp [← ha, hpa])]
      exact ih fun b hb => h b (List.mem_cons_of_mem a hb)

/-- minByKey yields none exactly on the empty list. -/
theorem minByKey_eq_none_iff {α : Type} (key : α → Int) (l : List α) :
    minByKey key l = none ↔ l = [] := by
  cases l with
  | nil => simp [minByKey]
  | cons a as_ =>
    simp only [minByKey]
    constructor
    · intro h
      exfalso
      cases hm : minByKey key as_ <;> rw [hm] at h
      · simp at h
      · split at h
        · simp at h
        · split at h <;> simp at h
    · intro h
      exact absurd h (List.cons_ne_nil a as_)

/-- Iterator::min_by_key computes the stable minimum: the earliest
element whose key is less than or equal to every key in the list. -/
theorem minByKey_eq_stableArgmin {α : Type} (key : α → Int) :
    ∀ l : List α, minByKey key l = stableArgmin key l := by
  intro l
  induction l with
  | nil => rfl
  | cons a as_ ih =>
    cases hm : minByKey key as_ with
    | none =>
      have hnil : as_ = [] := (minByKey_eq_none_iff key as_).1 hm
      subst hnil
      simp [minByKey, stableArgmin]
    | some b =>
      have hfind : as_.find? (fun x => as_.all fun y => decide (key x ≤ key y)) = some b := by
        have h2 := ih.symm.trans hm
        simpa [stableArgmin] using h2
      have hb : b ∈ as_ := List.mem_of_find?_eq_some hfind
      have hbmin : ∀ y ∈ as_, key b ≤ key y := by
        have h3 := List.find?_some hfind
        simpa [List.all_eq_true] using h3
      simp only [minByKey, hm, stableArgmin]
      by_cases hlt : key b < key a
      · rw [if_pos hlt]
        have hPa : ¬((a :: as_).all fun y => decide (key a ≤ key y)) = true := by
          intro hall
          simp only [List.all_eq_true, decide_eq_true_iff] at hall
          have := hall b (List.mem_cons_of_mem a hb)
          omega
        rw [List.find?_cons_of_neg as_ hPa]
        rw [find?_congrOn as_ (fun x hx => ?_), hfind]
        cases hQ : (as_.all fun y => decide (key x ≤ key y)) with
        | false => simp [List.all_cons, hQ]
        | true =>
          have hxb : key x ≤ key b := by
            simp only [List.all_eq_true, decide_eq_true_iff] at hQ
            exact hQ b hb
          simp only [List.all_cons, hQ, Bool.and_true]
          simp only [decide_eq_true_iff]
          omega
      · rw [if_neg hlt]
        have hge : key a ≤ key b := by omega
        have hPa : ((a :: as_).all fun y => decide (key a ≤ key y)) = true := by
          simp only [List.all_eq_true, List.mem_cons, decide_eq_true_iff]
          rintro y (rfl | hy)
          · omega
          · exact le_trans hge (hbmin y hy)
        rw [List.find?_cons_of_pos as_ hPa]

/-- Claim C1: next_meeting keeps exactly the meetings that have a link,
a parseable start, a parseable end strictly after now, and are accepted;
it returns none when no meeting survives, and otherwise the survivor
minimizing the absolute distance from start to now, with ties broken in
favour of the earliest-positioned survivor (stable minimum). -/
theorem next_meeting_correct (ms : List Meeting) (now : Int) :
    (∀ m, m ∈ survivors ms now ↔
        m ∈ ms ∧ m.get_link.isSome = true ∧ m.startTime.isSome = true ∧
          (∃ e, m.endTime = some e ∧ now < e) ∧ m.accepted = true)
    ∧ (next_meeting ms now = none ↔ survivors ms now = [])
    ∧ next_meeting ms now = stableArgmin (meetingKey now) (survivors ms now) := by
  refine ⟨?_, ?_, ?_⟩
  · intro m
    simp only [survivors, List.mem_filter, meetingSurvives, Bool.and_eq_true]
    constructor
    · rintro ⟨hmem, ⟨⟨⟨hl, hs⟩, he⟩, ha⟩⟩
      refine ⟨hmem, hl, hs, ?_, ha⟩
      cases hE : m.endTime with
      | none => rw [hE] at he; simp at he
      | some e =>
        rw [hE] at he
        exact ⟨e, rfl, by simpa using he⟩
    · rintro ⟨hmem, hl, hs, ⟨e, hE, hlt⟩, ha⟩
      exact ⟨hmem, ⟨⟨⟨hl, hs⟩, by rw [hE]; simpa using hlt⟩, ha⟩⟩
  · exact minByKey_eq_none_iff (meetingKey now) (survivors ms now)
  · exact minByKey_eq_stableArgmin (meetingKey now) (survivors ms now)

/-- Claim C3 counterexample: a meeting with two self entries that both
responded accepted is accepted, although the number of attendee entries
with is_self and response status accepted is not exactly one. -/
theorem accepted_two_self_counterexample :
    twoSelfAccepted.accepted = true ∧
      ¬((twoSelfAccepted.attendees.countP fun a => a.is_self && a.response_status == "accepted") = 1) := by
  constructor <;> decide

/-- Claim C3 amended: accepted is true iff at least one attendee entry
has is_self and response status accepted; any combination without such an
entry (declined, pending, missing self entry) yields false. -/
theorem accepted_iff_self_accepted_attendee (m : Meeting) :
    m.accepted = true ↔ ∃ a ∈ m.attendees, a.is_self = true ∧ a.response_status = "accepted" := by
  simp [Meeting.accepted, List.any_eq_true, Bool.and_eq_true]

/-- Claim C4: get_link prefers a gather.town URL in the description over
a zoom.us URL in the description over the native conferencing link, in
that order; without description and native link it returns none; and on
the scenario description with both URLs plus a native link it returns
the gather.town URL. -/
theorem get_link_priority :
    (∀ (m : Meeting) (d g : String), m.description = some d → findGather d = some g → m.get_link = some g)
    ∧ (∀ (m : Meeting) (d z : String), m.description = some d → findGather d = none → findZoom d = some z → m.get_link = some z)
    ∧ (∀ (m : Meeting) (d : String), m.description = some d → findGather d = none → findZoom d = none → m.get_link = m.hangout_link)
    ∧ (∀ m : Meeting, m.description = none → m.hangout_link = none → m.get_link = none)
    ∧ gatherZoomMeeting.get_link = some "https://app.gather.town/meetings/ABC"
    ∧ findZoom "Join via https://app.gather.town/meetings/ABC and also https://zoom.us/j/123" = some "https://zoom.us/j/123" := by
  refine ⟨?_, ?_, ?_, ?_, ?_, ?_⟩
  · intro m d g hd hg; simp [Meeting.get_link, hd, hg]
  · intro m d z hd hg hz; simp [Meeting.get_link, hd, hg, hz]
  · intro m d hd hg hz; simp [Meeting.get_link, hd, hg, hz]
  · intro m hd hh; simp [Meeting.get_link, hd, hh]
  · decide
  · decide

/-- Claim C4 witness: the gather branch of the priority theorem applied
to the concrete scenario meeting. -/
theorem get_link_priority_witness :
    gatherZoomMeeting.get_link = some "https://app.gather.town/meetings/ABC" :=
  get_link_priority.1 gatherZoomMeeting
    "Join via https://app.gather.town/meetings/ABC and also https://zoom.us/j/123"
    "https://app.gather.town/meetings/ABC" rfl (by decide)

/-- Claim C7: retrieve_all returns exactly the fetched meetings that are
accepted, have a parseable start and have a link (as a permutation of
that filter and as a membership equivalence), sorted ascending by start
instant. -/
theorem retrieve_all_correct (items : List Meeting) :
    (retrieve_all_meetings items).Perm
        (items.filter fun m => m.startTime.isSome && m.accepted && m.get_link.isSome)
    ∧ List.Sorted (fun a b => allKey a ≤ allKey b) (retrieve_all_meetings items)
    ∧ (∀ m, m ∈ retrieve_all_meetings items ↔
        m ∈ items ∧ m.startTime.isSome = true ∧ m.accepted = true ∧ m.get_link.isSome = true) := by
  have hperm : (retrieve_all_meetings items).Perm (items.filter keptForAll) :=
    List.mergeSort_perm _ _
  refine ⟨hperm, ?_, ?_⟩
  · have htrans : ∀ a b c : Meeting, (fun a b => decide (allKey a ≤ allKey b)) a b = true →
        (fun a b => decide (allKey a ≤ allKey b)) b c = true →
        (fun a b => decide (allKey a ≤ allKey b)) a c = true := by
      intro a b c hab hbc
      simp only [decide_eq_true_iff] at hab hbc ⊢
      omega
    have htotal : ∀ a b : Meeting, ((fun a b => decide (allKey a ≤ allKey b)) a b
        || (fun a b => decide (allKey a ≤ allKey b)) b a) = true := by
      intro a b
      rcases le_total (allKey a) (allKey b) with h | h <;> simp [h]
    have hs := List.sorted_mergeSort htrans htotal (items.filter keptForAll)
    exact List.Pairwise.imp (fun h => decide_eq_true_iff.1 h) hs
  · intro m
    rw [hperm.mem_iff, List.mem_filter]
    simp [keptForAll, Bool.and_eq_true, and_assoc]

/-- Claim C8: get_other_links returns the href capture targets of the
description in order (the two-anchor scenario yields both URLs in
appearance order), and the empty sequence without a description. -/
theorem other_links_correct :
    twoHrefMeeting.get_other_links = ["http://a.ext", "http://b.ext"]
    ∧ ∀ m : Meeting, m.description = none → m.get_other_links = [] := by
  constructor
  · decide
  · intro m h
    simp [Meeting.get_other_links, h]

/-- Claim C8 witness: the no-description branch applied to the blank
meeting. -/
theorem other_links_correct_witness :
    blankMeeting.get_other_links = [] :=
  other_links_correct.2 blankMeeting rfl

/-- Claim C9: saving a token pair to the credential store and loading it
again yields the identical structure, for every pair and prior store
content. -/
theorem tokens_roundtrip (t : Tokens) (store : CredStore) :
    loadStore (saveStore t store) = some t := by
  cases t with
  | mk a r => cases r <;> rfl

/-- Claim C2 counterexample: with a missing credential file, a
successful Authorization Flow and a provider that accepts the refresh of
the fresh pair, retrieve_tokens returns the refreshed pair, not the pair
produced by the Authorization Flow. -/
theorem retrieve_tokens_login_refreshed_counterexample :
    (retrieve_tokens c2Env).1 = some ⟨"refreshed-access", some "r1"⟩ ∧
      ¬((retrieve_tokens c2Env).1 = some ⟨"login-access", some "r1"⟩) := by
  constructor <;> decide

/-- Claim C2 amended: when loading the persisted pair fails, the
Authorization Flow runs; if it fails its error is propagated with no
further fallback, and if it succeeds its pair is passed through refresh,
whose failure triggers a second Authorization Flow. -/
theorem retrieve_tokens_load_failure (env : AuthEnv) (h : env.loadResult = none) :
    (do_login env 0 = none → retrieve_tokens env = (none, 1))
    ∧ ∀ t : Tokens, do_login env 0 = some t →
        retrieve_tokens env =
          (match Tokens.refresh env t with
           | some t2 => (some t2, 1)
           | none => (do_login env 1, 2)) := by
  constructor
  · intro hl
    simp [retrieve_tokens, h, hl]
  · intro t hl
    simp [retrieve_tokens, h, hl]

/-- Claim C2 witness: the amended theorem applied to the concrete
environment of the counterexample. -/
theorem retrieve_tokens_load_failure_witness :
    retrieve_tokens c2Env = (some ⟨"refreshed-access", some "r1"⟩, 1) := by
  have h := (retrieve_tokens_load_failure c2Env rfl).2 ⟨"login-access", some "r1"⟩ (by decide)
  exact h.trans (by decide)

/-- Claim C5: when the persisted pair loads, carries a refresh token and
the provider rejects the refresh, retrieve_tokens falls back to the full
Authorization Flow (its outcome becomes the result) instead of
propagating the refresh error. -/
theorem refresh_failure_falls_back (env : AuthEnv) (t : Tokens) (r : String)
    (hload : env.loadResult = some t) (hr : t.refresh_token = some r)
    (hex : env.exchangeResult r = none) :
    retrieve_tokens env = (do_login env 0, 1) := by
  simp [retrieve_tokens, hload, Tokens.refresh, hr, hex]

/-- Claim C5 witness: the fallback theorem applied to the concrete
environment with a rejected refresh and a successful login. -/
theorem refresh_failure_falls_back_witness :
    retrieve_tokens c5Env = (some ⟨"fresh-access", some "r2"⟩, 1) := by
  have h := refresh_failure_falls_back c5Env ⟨"stale-access", some "r0"⟩ "r0" rfl rfl rfl
  exact h.trans (by decide)

/-- Claim C6 counterexample: in the link-only output mode a successful
retrieval that finds no meeting exits with code 1, not 0. -/
theorem exit_code_counterexample :
    main_exit linkOnlyFlags { baseEnv with retrieveResult := some none } = 1 ∧
      ¬(main_exit linkOnlyFlags { baseEnv with retrieveResult := some none } = 0) := by
  constructor <;> decide

/-- Claim C6 amended: every mode exits 0 on success and 1 on
authentication or network failure; on no meeting found the default and
machine modes exit 0, but the link-only mode exits 1. -/
theorem exit_codes_by_mode (env : MainEnv) :
    (∀ s, main_exit jsonFlags { env with jsonResult := some s } = 0)
    ∧ main_exit jsonFlags { env with jsonResult := none } = 1
    ∧ (∀ t r, main_exit machineFullFlags { env with storedRefresh := some t, retrieveResult := some r } = 0)
    ∧ main_exit machineFullFlags { env with storedRefresh := none } = 1
    ∧ (∀ t, main_exit machineFullFlags { env with storedRefresh := some t, retrieveResult := none } = 1)
    ∧ (∀ t r, main_exit addLinksFlags { env with storedRefresh := some t, retrieveResult := some r } = 0)
    ∧ main_exit addLinksFlags { env with storedRefresh := none } = 1
    ∧ (∀ t, main_exit addLinksFlags { env with storedRefresh := some t, retrieveResult := none } = 1)
    ∧ (∀ l, main_exit allMeetsFlags { env with retrieveAllResult := some l } = 0)
    ∧ main_exit allMeetsFlags { env with retrieveAllResult := none } = 1
    ∧ (∀ r, main_exit defaultFlags { env with retrieveResult := some r } = 0)
    ∧ main_exit defaultFlags { env with retrieveResult := none } = 1
    ∧ main_exit linkOnlyFlags { env with retrieveResult := none } = 1
    ∧ main_exit linkOnlyFlags { env with retrieveResult := some none } = 1
    ∧ (∀ m : Meeting, main_exit linkOnlyFlags { env with retrieveResult := some (some m) } =
        match m.get_link with
        | some _ => 0
        | none => 1) := by
  refine ⟨?_, ?_, ?_, ?_, ?_, ?_, ?_, ?_, ?_, ?_, ?_, ?_, ?_, ?_, ?_⟩ <;>
    simp [main_exit, jsonFlags, machineFullFlags, addLinksFlags, allMeetsFlags,
      defaultFlags, linkOnlyFlags]

/-- Claim C10: the unwrap of the start instant in the min_by_key
selector of next_meeting and in the sort key of retrieve_all never
panics: every meeting passing either filter has a parseable start. -/
theorem unwrap_start_safe (ms : List Meeting) (now : Int) (m : Meeting) :
    (m ∈ survivors ms now → m.startTime.isSome = true)
    ∧ (m ∈ ms.filter keptForAll → m.startTime.isSome = true) := by
  constructor
  · intro h
    simp only [survivors] at h
    have hp := (List.mem_filter.1 h).2
    simp only [meetingSurvives, Bool.and_eq_true] at hp
    exact hp.1.1.2
  · intro h
    have hp := (List.mem_filter.1 h).2
    simp only [keptForAll, Bool.and_eq_true] at hp
    exact hp.1.1

/-- Claim C10 witness: the selectable meeting passes the filter of
next_meeting and has a parseable start. -/
theorem unwrap_start_safe_witness :
    okMeeting.startTime.isSome = true ∧ okMeeting ∈ survivors [okMeeting] 0 :=
  ⟨(unwrap_start_safe [okMeeting] 0 okMeeting).1 (by decide), by decide⟩

end Nextmeet
